import Mathlib

/-!
Verification of `pdf_extractor.py` (PDF text-extractor tool).

The development shallowly embeds the pure content of the `PDFExtractor`
class.  A PDF document is modelled as the list of its pages' extracted
texts: `List String` for the PyMuPDF backend, whose `page.get_text()`
always returns a string, and `List (Option String)` for the pdfplumber
backend, whose `page.extract_text()` may return `None`.  Machine
integers are `Nat` (all page numbers in the tool are small
non-negative integers, far from any overflow); Python truthiness tests
such as `if start_page` are modelled explicitly.  Fallible per-page
text extraction is modelled with `Except`, together with a boolean
recording whether the document handle was released before the call
returned.
-/

/-- Models the ASCII whitespace set recognised by Python's `str.split()`
and `str.strip()` (space, tab, linefeed, carriage return, vertical tab,
form feed).  The tool's inputs are treated as ASCII-oriented text, so
unicode whitespace is outside the scope of the embedding. -/
def pyIsSpace (c : Char) : Bool :=
  c = ' ' || c = '\t' || c = '\n' || c = '\r' || c = Char.ofNat 11 || c = Char.ofNat 12

/-- Models Python `line.strip()`: drop leading and trailing whitespace. -/
def stripCh (l : List Char) : List Char :=
  ((l.dropWhile pyIsSpace).reverse.dropWhile pyIsSpace).reverse

/-- Models Python `text.split('\n')` on the character list of `text`:
splits at every linefeed, keeping empty pieces (so `""` gives `[""]`). -/
def splitLinesCh : List Char → List (List Char)
  | [] => [[]]
  | c :: cs =>
    if c = '\n' then [] :: splitLinesCh cs
    else
      match splitLinesCh cs with
      | [] => [[c]]
      | l :: ls => (c :: l) :: ls

/-- Helper for `pySplit`; `acc` holds the current token reversed. -/
def pySplitAux : List Char → List Char → List (List Char)
  | acc, [] => if acc = [] then [] else [acc.reverse]
  | acc, c :: cs =>
    if pyIsSpace c then
      if acc = [] then pySplitAux [] cs else acc.reverse :: pySplitAux [] cs
    else pySplitAux (c :: acc) cs

/-- Models Python `line.split()`: split on runs of whitespace, with no
empty tokens. -/
def pySplit (l : List Char) : List (List Char) := pySplitAux [] l

/-- Models the Python substring test `pat in text`. -/
def substrIn (pat : List Char) : List Char → Bool
  | [] => pat.isEmpty
  | c :: cs => pat.isPrefixOf (c :: cs) || substrIn pat cs

/-- ASCII digit test; `line.strip().startswith(tuple('0123456789'))` is
the test that the first character of the stripped line is a digit. -/
def isDigitChar (c : Char) : Bool := '0' ≤ c && c ≤ '9'

/-- One page's extracted text tagged with its 1-indexed page number
(the dictionaries `{"page_number": ..., "text": ...}` built by
`extract_pages`). -/
structure PageRecord where
  page_number : Nat
  text : String
deriving Repr, DecidableEq

/-- One iteration of the inner line loop of `find_section`: the line,
after `strip()`, starts with an ASCII digit, and the line's first
whitespace-delimited token differs from the target label
(`parts and parts[0] != section_pattern`). -/
def lineEndsSection (section_pattern : List Char) (line : List Char) : Bool :=
  (match stripCh line with
   | [] => false
   | c :: _ => isDigitChar c) &&
  (match pySplit line with
   | [] => false
   | t :: _ => t != section_pattern)

/-- A page triggers the early return of `find_section` exactly when some
line of its text satisfies `lineEndsSection`; the returned value does not
depend on which line fires first, so the first-line early return of the
Python loop is equivalent to this existential test. -/
def pageEndsSection (section_pattern : List Char) (text : String) : Bool :=
  (splitLinesCh text.toList).any (fun line => lineEndsSection section_pattern line)

/-- Result of the page loop inside `find_section`. -/
inductive ScanResult where
  | found : Nat → Nat → ScanResult
  | noEnd : Nat → ScanResult
  | notFound : ScanResult
deriving Repr, DecidableEq

/-- The page loop of `find_section`.  The `Option Nat` is the mutable
`section_start` variable: while unset, a page whose text contains the
label as a substring sets it to that page's number; once set, the first
page with a `lineEndsSection` line ends the scan with
`(section_start, page_number - 1)`. -/
def findSectionScan (section_pattern : List Char) :
    Option Nat → List PageRecord → ScanResult
  | none, [] => ScanResult.notFound
  | some s, [] => ScanResult.noEnd s
  | none, p :: ps =>
    if substrIn section_pattern p.text.toList then
      findSectionScan section_pattern (some p.page_number) ps
    else
      findSectionScan section_pattern none ps
  | some s, p :: ps =>
    if pageEndsSection section_pattern p.text then
      ScanResult.found s (p.page_number - 1)
    else
      findSectionScan section_pattern (some s) ps

/-- Models `PDFExtractor.find_section`.  In the source the method first
materialises `pages = self.extract_pages(start_page, end_page)` and then
runs the scan; the embedding takes that page list directly.  After the
loop, a set `section_start` with no end found returns
`(section_start, pages[-1]["page_number"])`; the `noEnd`-on-empty branch
is unreachable (the start can only be set while scanning a page), so the
total model may return `none` there. -/
def find_section (section_pattern : String) (pages : List PageRecord) :
    Option (Nat × Nat) :=
  match findSectionScan section_pattern.toList none pages with
  | ScanResult.found s e => some (s, e)
  | ScanResult.noEnd s =>
    match pages.getLast? with
    | some p => some (s, p.page_number)
    | none => none
  | ScanResult.notFound => none

/-- Models `start = (start_page - 1) if start_page else 0`: by Python
truthiness, both `None` and `0` give `0`. -/
def resolveStart : Option Nat → Nat
  | none => 0
  | some s => if s = 0 then 0 else s - 1

/-- Models `end = end_page if end_page else total_pages`: by Python
truthiness, both `None` and `0` give `total_pages`. -/
def resolveEnd (total_pages : Nat) : Option Nat → Nat
  | none => total_pages
  | some e => if e = 0 then total_pages else e

/-- Models `PDFExtractor._extract_with_pymupdf` on an already-opened
document, given as the list of its pages' `get_text()` results.  The
loop runs over `range(start, min(end, total_pages))` and records
`page_num + 1` as the 1-indexed page number. -/
def extract_with_pymupdf (doc : List String) (start_page end_page : Option Nat) :
    List PageRecord :=
  let total_pages := doc.length
  let start := resolveStart start_page
  let stop := min (resolveEnd total_pages end_page) total_pages
  (List.range' start (stop - start)).map fun page_num =>
    { page_number := page_num + 1, text := doc.getD page_num "" }

/-- Models `PDFExtractor._extract_with_pdfplumber`: identical range
logic, but `page.extract_text()` may return `None`, which `text or ""`
coerces to the empty string. -/
def extract_with_pdfplumber (doc : List (Option String)) (start_page end_page : Option Nat) :
    List PageRecord :=
  let total_pages := doc.length
  let start := resolveStart start_page
  let stop := min (resolveEnd total_pages end_page) total_pages
  (List.range' start (stop - start)).map fun page_num =>
    { page_number := page_num + 1, text := (doc.getD page_num none).getD "" }

/-- The extraction loop with fallible per-page text extraction: stops at
the first page whose extraction raises, propagating the exception. -/
def runPages (getText : Nat → Except Unit String) : List Nat → Except Unit (List PageRecord)
  | [] => Except.ok []
  | i :: is =>
    match getText i with
    | Except.error u => Except.error u
    | Except.ok t =>
      match runPages getText is with
      | Except.error u => Except.error u
      | Except.ok rest => Except.ok ({ page_number := i + 1, text := t } :: rest)

/-- Models `_extract_with_pymupdf` when per-page text extraction may
raise.  The second component records whether `doc.close()` executed:
in the source the call sits after the loop with no `try`/`finally`, so
an exception raised inside the loop propagates before it runs. -/
def extract_with_pymupdf_run (doc : List (Except Unit String))
    (start_page end_page : Option Nat) : Except Unit (List PageRecord) × Bool :=
  let total_pages := doc.length
  let start := resolveStart start_page
  let stop := min (resolveEnd total_pages end_page) total_pages
  match runPages (fun i => doc.getD i (Except.ok "")) (List.range' start (stop - start)) with
  | Except.ok pages => (Except.ok pages, true)
  | Except.error u => (Except.error u, false)

/-- Models `_extract_with_pdfplumber` when per-page text extraction may
raise.  The body runs inside `with pdfplumber.open(...) as pdf:`, whose
context manager closes the document on every exit path, so the second
component is `true` whether or not the loop raises. -/
def extract_with_pdfplumber_run (doc : List (Except Unit (Option String)))
    (start_page end_page : Option Nat) : Except Unit (List PageRecord) × Bool :=
  let total_pages := doc.length
  let start := resolveStart start_page
  let stop := min (resolveEnd total_pages end_page) total_pages
  (runPages (fun i => (doc.getD i (Except.ok none)).map (fun t => t.getD ""))
     (List.range' start (stop - start)), true)

example :
    extract_with_pymupdf ["a", "b", "c", "d"] (some 2) (some 3) =
      [{ page_number := 2, text := "b" }, { page_number := 3, text := "c" }] := by
  decide

example :
    extract_with_pdfplumber [some "a", none] none none =
      [{ page_number := 1, text := "a" }, { page_number := 2, text := "" }] := by
  decide

example :
    find_section "3.2"
      [{ page_number := 5, text := "3.2 Results" },
       { page_number := 6, text := "3.3 More" }] = some (5, 5) := by
  decide

example :
    find_section "3.2"
      [{ page_number := 1, text := "intro" },
       { page_number := 2, text := "see 3.2" }] = some (2, 2) := by
  decide

example : find_section "3.2" [] = none := by decide

/-- While `section_start` is unset, pages that do not contain the label
are skipped without effect. -/
theorem findSectionScan_none_append (pat : List Char) (rest : List PageRecord) :
    ∀ pre : List PageRecord, (∀ p ∈ pre, substrIn pat p.text.toList = false) →
      findSectionScan pat none (pre ++ rest) = findSectionScan pat none rest := by
  intro pre
  induction pre with
  | nil => intro _; rfl
  | cons p ps ih =>
    intro h
    have hp : substrIn pat p.text.toList = false := h p (by simp)
    rw [List.cons_append]
    simp only [findSectionScan, hp]
    simp only [Bool.false_eq_true, if_false]
    exact ih (fun q hq => h q (by simp [hq]))

/-- Once `section_start` is set, pages with no section-ending line are
skipped without effect. -/
theorem findSectionScan_some_append (pat : List Char) (s : Nat) (rest : List PageRecord) :
    ∀ mid : List PageRecord, (∀ p ∈ mid, pageEndsSection pat p.text = false) →
      findSectionScan pat (some s) (mid ++ rest) = findSectionScan pat (some s) rest := by
  intro mid
  induction mid with
  | nil => intro _; rfl
  | cons p ps ih =>
    intro h
    have hp : pageEndsSection pat p.text = false := h p (by simp)
    rw [List.cons_append]
    simp only [findSectionScan, hp]
    simp only [Bool.false_eq_true, if_false]
    exact ih (fun q hq => h q (by simp [hq]))

/-- If no page of the range contains the label, the scan never sets
`section_start` and ends in `notFound`. -/
theorem findSectionScan_none_all (pat : List Char) :
    ∀ pages : List PageRecord, (∀ p ∈ pages, substrIn pat p.text.toList = false) →
      findSectionScan pat none pages = ScanResult.notFound := by
  intro pages h
  have := findSectionScan_none_append pat [] pages h
  simpa using this

/-- Claim C6: for an empty search range, and for any search range none of
whose pages' texts contain the target label as a substring,
`find_section` returns `none` (absent) rather than raising; the empty
range is the instance `pages = []`, on which the final
`pages[-1]` indexing is never reached because `section_start` was never
set. -/
theorem claim_C6 (section_pattern : String) (pages : List PageRecord)
    (h : ∀ p ∈ pages, substrIn section_pattern.toList p.text.toList = false) :
    find_section section_pattern pages = none := by
  unfold find_section
  rw [findSectionScan_none_all section_pattern.toList pages h]

/-- Witness for C6: a two-page range entirely lacking the label "3.2"
yields `none`. -/
theorem claim_C6_witness :
    find_section "3.2"
      [{ page_number := 1, text := "alpha" }, { page_number := 2, text := "beta" }] = none :=
  claim_C6 "3.2"
    [{ page_number := 1, text := "alpha" }, { page_number := 2, text := "beta" }]
    (by decide)

/-- Claim C5: if the target label occurs as a substring only on the very
last page of the search range (so no later page can end the section),
`find_section` returns that last page paired with itself. -/
theorem claim_C5 (section_pattern : String) (pre : List PageRecord) (q : PageRecord)
    (hpre : ∀ r ∈ pre, substrIn section_pattern.toList r.text.toList = false)
    (hq : substrIn section_pattern.toList q.text.toList = true) :
    find_section section_pattern (pre ++ [q]) = some (q.page_number, q.page_number) := by
  unfold find_section
  rw [findSectionScan_none_append section_pattern.toList [q] pre hpre]
  have hq' : substrIn section_pattern.data q.text.data = true := hq
  simp [findSectionScan, hq', List.getLast?_concat]

/-- Witness for C5: label "3.2" present only on the last page (page 7)
of a three-page range gives `(7, 7)`. -/
theorem claim_C5_witness :
    find_section "3.2"
      [{ page_number := 5, text := "intro" }, { page_number := 6, text := "more" },
       { page_number := 7, text := "see 3.2 here" }] = some (7, 7) :=
  claim_C5 "3.2"
    [{ page_number := 5, text := "intro" }, { page_number := 6, text := "more" }]
    { page_number := 7, text := "see 3.2 here" }
    (by decide) (by decide)

/-- Claim C1: with `A` the pages before the first label occurrence, `p`
the first page containing the label as a substring, `B` later pages with
no section-ending line, and `q` the first later page containing a line
that (after stripping) starts with an ASCII digit and whose first
whitespace-delimited token differs from the label, the scan returns
`(p.page_number, q.page_number - 1)`.  The positivity hypothesis keeps
the `Nat` subtraction on the faithful domain (page numbers produced by
`extract_pages` are always positive). -/
theorem claim_C1 (section_pattern : String) (A B C : List PageRecord) (p q : PageRecord)
    (hA : ∀ r ∈ A, substrIn section_pattern.toList r.text.toList = false)
    (hp : substrIn section_pattern.toList p.text.toList = true)
    (hB : ∀ r ∈ B, pageEndsSection section_pattern.toList r.text = false)
    (hq : pageEndsSection section_pattern.toList q.text = true)
    (hqpos : 0 < q.page_number) :
    find_section section_pattern (A ++ p :: (B ++ q :: C)) =
      some (p.page_number, q.page_number - 1) := by
  unfold find_section
  rw [findSectionScan_none_append section_pattern.toList (p :: (B ++ q :: C)) A hA]
  simp only [findSectionScan, hp, if_true]
  rw [findSectionScan_some_append section_pattern.toList p.page_number (q :: C) B hB]
  have hq' : pageEndsSection section_pattern.data q.text = true := hq
  simp [findSectionScan, hq']

/-- Witness for C1, realising the spec's own example: page 5 contains
the label "3.2" and page 6's first digit-leading line starts with token
"3.3", so the locator returns `(5, 5)`. -/
theorem claim_C1_witness :
    find_section "3.2"
      [{ page_number := 5, text := "3.2 Results" },
       { page_number := 6, text := "3.3 More" }] = some (5, 5) :=
  claim_C1 "3.2" [] [] []
    { page_number := 5, text := "3.2 Results" }
    { page_number := 6, text := "3.3 More" }
    (by decide) (by decide) (by decide) (by decide) (by decide)

/-- Inversion for the set-start state: an early return keeps the start
that was set and takes its end from some page of the remaining list. -/
theorem findSectionScan_some_found (pat : List Char) (s : Nat) :
    ∀ (pages : List PageRecord) (s' e : Nat),
      findSectionScan pat (some s) pages = ScanResult.found s' e →
      s' = s ∧ ∃ q ∈ pages, e = q.page_number - 1 := by
  intro pages
  induction pages with
  | nil => intro s' e h; simp [findSectionScan] at h
  | cons p ps ih =>
    intro s' e h
    by_cases hp : pageEndsSection pat p.text
    · simp only [findSectionScan, hp, if_true] at h
      cases h
      exact ⟨rfl, p, by simp⟩
    · simp only [findSectionScan, hp] at h
      simp only [Bool.false_eq_true, if_false] at h
      obtain ⟨hs, q, hq, he⟩ := ih s' e h
      exact ⟨hs, q, by simp [hq], he⟩

/-- Inversion for the full scan ending in `found`: the start is the page
number of some page at index `i`, and the end comes from a page strictly
after it. -/
theorem findSectionScan_none_found (pat : List Char) :
    ∀ (pages : List PageRecord) (s e : Nat),
      findSectionScan pat none pages = ScanResult.found s e →
      ∃ i, ∃ hi : i < pages.length, (pages.get ⟨i, hi⟩).page_number = s ∧
        ∃ q ∈ pages.drop (i + 1), e = q.page_number - 1 := by
  intro pages
  induction pages with
  | nil => intro s e h; simp [findSectionScan] at h
  | cons p ps ih =>
    intro s e h
    by_cases hp : substrIn pat p.text.toList
    · simp only [findSectionScan, hp, if_true] at h
      obtain ⟨hs, q, hq, he⟩ := findSectionScan_some_found pat p.page_number ps s e h
      refine ⟨0, by simp, ?_, q, by simpa using hq, he⟩
      simpa using hs.symm
    · simp only [findSectionScan, hp] at h
      simp only [Bool.false_eq_true, if_false] at h
      obtain ⟨i, hi, hnum, q, hq, he⟩ := ih s e h
      exact ⟨i + 1, by simpa using hi, by simpa using hnum, q, by simpa using hq, he⟩

/-- Inversion for the set-start state ending with no early return: the
start is unchanged. -/
theorem findSectionScan_some_noEnd (pat : List Char) (s : Nat) :
    ∀ (pages : List PageRecord) (s' : Nat),
      findSectionScan pat (some s) pages = ScanResult.noEnd s' → s' = s := by
  intro pages
  induction pages with
  | nil => intro s' h; simp [findSectionScan] at h; exact h.symm
  | cons p ps ih =>
    intro s' h
    by_cases hp : pageEndsSection pat p.text
    · simp [findSectionScan, hp] at h
    · simp only [findSectionScan, hp] at h
      simp only [Bool.false_eq_true, if_false] at h
      exact ih s' h

/-- Inversion for the full scan ending in `noEnd`: the recorded start is
the page number of some scanned page. -/
theorem findSectionScan_none_noEnd (pat : List Char) :
    ∀ (pages : List PageRecord) (s : Nat),
      findSectionScan pat none pages = ScanResult.noEnd s →
      ∃ p ∈ pages, p.page_number = s := by
  intro pages
  induction pages with
  | nil => intro s h; simp [findSectionScan] at h
  | cons p ps ih =>
    intro s h
    by_cases hp : substrIn pat p.text.toList
    · simp only [findSectionScan, hp, if_true] at h
      have := findSectionScan_some_noEnd pat p.page_number ps s h
      exact ⟨p, by simp, this.symm⟩
    · simp only [findSectionScan, hp] at h
      simp only [Bool.false_eq_true, if_false] at h
      obtain ⟨r, hr, hnum⟩ := ih s h
      exact ⟨r, by simp [hr], hnum⟩

/-- Claim C9 (implicit invariant): whenever `find_section` returns a
match `(s, e)` on a page list whose page numbers are the contiguous
ascending block `a, a+1, ...` with `a` positive — the shape every
`extract_pages` output has — then `s ≤ e` and both `s` and `e` are page
numbers of pages inside the scanned range. -/
theorem claim_C9 (section_pattern : String) (pages : List PageRecord) (a s e : Nat)
    (ha : 0 < a)
    (hshape : pages.map PageRecord.page_number = List.range' a pages.length)
    (hfind : find_section section_pattern pages = some (s, e)) :
    s ≤ e ∧ s ∈ pages.map PageRecord.page_number ∧ e ∈ pages.map PageRecord.page_number := by
  have hnum : ∀ i (hi : i < pages.length), (pages.get ⟨i, hi⟩).page_number = a + i := by
    intro i hi
    have h1 : (pages.map PageRecord.page_number)[i]? = (List.range' a pages.length)[i]? := by
      rw [hshape]
    rw [List.getElem?_map, List.getElem?_range' a 1 hi, List.getElem?_eq_getElem hi] at h1
    simpa using h1
  unfold find_section at hfind
  cases hscan : findSectionScan section_pattern.toList none pages with
  | found s0 e0 =>
    rw [hscan] at hfind
    simp only [Option.some.injEq, Prod.mk.injEq] at hfind
    obtain ⟨hs0, he0⟩ := hfind
    obtain ⟨i, hi, hstart, q, hq, hend⟩ := findSectionScan_none_found _ pages s0 e0 hscan
    obtain ⟨k, hk, hget⟩ := List.mem_iff_getElem.mp hq
    rw [List.getElem_drop] at hget
    have hk' : i + 1 + k < pages.length := by
      simp only [List.length_drop] at hk
      omega
    have hqnum : q.page_number = a + (i + 1 + k) := by
      rw [← hget]
      simpa using hnum (i + 1 + k) hk'
    have hsnum : s0 = a + i := by rw [← hstart]; exact hnum i hi
    have henum : e0 = a + (i + k) := by omega
    refine ⟨by omega, ?_, ?_⟩
    · rw [hshape]; simp only [List.mem_range'_1]; omega
    · rw [hshape]; simp only [List.mem_range'_1]; omega
  | noEnd s0 =>
    rw [hscan] at hfind
    cases hlast : pages.getLast? with
    | none => rw [hlast] at hfind; simp at hfind
    | some p =>
      rw [hlast] at hfind
      simp only [Option.some.injEq, Prod.mk.injEq] at hfind
      obtain ⟨hs0, he0⟩ := hfind
      obtain ⟨r, hr, hrnum⟩ := findSectionScan_none_noEnd _ pages s0 hscan
      have hne : pages ≠ [] := by
        intro hnil; rw [hnil] at hr; simp at hr
      have hlen : 0 < pages.length := List.length_pos.mpr hne
      have hpe : p.page_number = a + (pages.length - 1) := by
        rw [List.getLast?_eq_getElem?, List.getElem?_eq_getElem (by omega)] at hlast
        have hp' : pages.get ⟨pages.length - 1, by omega⟩ = p := by simpa using hlast
        rw [← hp']
        exact hnum (pages.length - 1) (by omega)
      have hsmem : s0 ∈ pages.map PageRecord.page_number := by
        rw [← hrnum]
        exact List.mem_map_of_mem PageRecord.page_number hr
      have hsrange : a ≤ s0 ∧ s0 < a + pages.length := by
        have h2 := hsmem
        rw [hshape] at h2
        simpa using h2
      refine ⟨by omega, ?_, ?_⟩
      · rw [hshape]; simp only [List.mem_range'_1]; omega
      · rw [hshape]; simp only [List.mem_range'_1]; omega
  | notFound => rw [hscan] at hfind; simp at hfind

/-- Witness for C9: a concrete two-page range starting at page 1 where
the locator returns `(1, 1)`, which is inside the range with start ≤ end. -/
theorem claim_C9_witness :
    1 ≤ 1 ∧
      1 ∈ List.map PageRecord.page_number
            [{ page_number := 1, text := "3.2 a" }, { page_number := 2, text := "3.3 b" }] ∧
      1 ∈ List.map PageRecord.page_number
            [{ page_number := 1, text := "3.2 a" }, { page_number := 2, text := "3.3 b" }] :=
  claim_C9 "3.2"
    [{ page_number := 1, text := "3.2 a" }, { page_number := 2, text := "3.3 b" }]
    1 1 1 (by decide) (by decide) (by decide)

/-- Mapping successor over a contiguous `Nat` block shifts its start. -/
theorem map_succ_range' : ∀ (s n : Nat),
    (List.range' s n).map (fun i => i + 1) = List.range' (s + 1) n := by
  intro s n
  induction n generalizing s with
  | zero => simp
  | succ n ih => rw [List.range'_succ, List.range'_succ, List.map_cons, ih]

/-- The page numbers produced by the PyMuPDF extraction loop are the
contiguous block starting one past the resolved 0-indexed start. -/
theorem extract_with_pymupdf_page_numbers (doc : List String) (sp ep : Option Nat) :
    (extract_with_pymupdf doc sp ep).map PageRecord.page_number =
      List.range' (resolveStart sp + 1)
        (min (resolveEnd doc.length ep) doc.length - resolveStart sp) := by
  unfold extract_with_pymupdf
  rw [List.map_map]
  exact map_succ_range' _ _

/-- The page numbers produced by the pdfplumber extraction loop are the
same contiguous block. -/
theorem extract_with_pdfplumber_page_numbers (doc : List (Option String)) (sp ep : Option Nat) :
    (extract_with_pdfplumber doc sp ep).map PageRecord.page_number =
      List.range' (resolveStart sp + 1)
        (min (resolveEnd doc.length ep) doc.length - resolveStart sp) := by
  unfold extract_with_pdfplumber
  rw [List.map_map]
  exact map_succ_range' _ _

/-- Claim C3: for positive bounds `s ≤ e` with `e` inside the document,
both backends return exactly `min e page_count - (s-1)` records whose
page numbers are the contiguous ascending block starting at `s`; with
the start unset they start at page 1.  (`s - 1` is `Nat` subtraction,
which with `0 < s` coincides with the claim's `max(start-1, 0)`.) -/
theorem claim_C3 (s e : Nat) (hs : 0 < s) (hse : s ≤ e) :
    (∀ doc : List String, e ≤ doc.length →
      (extract_with_pymupdf doc (some s) (some e)).length = min e doc.length - (s - 1) ∧
      (extract_with_pymupdf doc (some s) (some e)).map PageRecord.page_number =
        List.range' s ((extract_with_pymupdf doc (some s) (some e)).length)) ∧
    (∀ doc : List (Option String), e ≤ doc.length →
      (extract_with_pdfplumber doc (some s) (some e)).length = min e doc.length - (s - 1) ∧
      (extract_with_pdfplumber doc (some s) (some e)).map PageRecord.page_number =
        List.range' s ((extract_with_pdfplumber doc (some s) (some e)).length)) ∧
    (∀ doc : List String, e ≤ doc.length →
      (extract_with_pymupdf doc none (some e)).map PageRecord.page_number =
        List.range' 1 ((extract_with_pymupdf doc none (some e)).length)) ∧
    (∀ doc : List (Option String), e ≤ doc.length →
      (extract_with_pdfplumber doc none (some e)).map PageRecord.page_number =
        List.range' 1 ((extract_with_pdfplumber doc none (some e)).length)) := by
  have hs' : s ≠ 0 := by omega
  have he' : e ≠ 0 := by omega
  have hrs : resolveStart (some s) = s - 1 := by simp [resolveStart, hs']
  have hrs0 : resolveStart none = 0 := rfl
  refine ⟨?_, ?_, ?_, ?_⟩
  · intro doc hdoc
    have hre : resolveEnd doc.length (some e) = e := by simp [resolveEnd, he']
    have hlen : (extract_with_pymupdf doc (some s) (some e)).length =
        min e doc.length - (s - 1) := by
      unfold extract_with_pymupdf
      rw [List.length_map, List.length_range', hrs, hre]
    refine ⟨hlen, ?_⟩
    rw [extract_with_pymupdf_page_numbers, hlen, hrs, hre]
    have h1 : s - 1 + 1 = s := by omega
    rw [h1]
  · intro doc hdoc
    have hre : resolveEnd doc.length (some e) = e := by simp [resolveEnd, he']
    have hlen : (extract_with_pdfplumber doc (some s) (some e)).length =
        min e doc.length - (s - 1) := by
      unfold extract_with_pdfplumber
      rw [List.length_map, List.length_range', hrs, hre]
    refine ⟨hlen, ?_⟩
    rw [extract_with_pdfplumber_page_numbers, hlen, hrs, hre]
    have h1 : s - 1 + 1 = s := by omega
    rw [h1]
  · intro doc hdoc
    have hlen : (extract_with_pymupdf doc none (some e)).length =
        min (resolveEnd doc.length (some e)) doc.length - resolveStart none := by
      unfold extract_with_pymupdf
      rw [List.length_map, List.length_range']
    rw [extract_with_pymupdf_page_numbers, hlen, hrs0]
  · intro doc hdoc
    have hlen : (extract_with_pdfplumber doc none (some e)).length =
        min (resolveEnd doc.length (some e)) doc.length - resolveStart none := by
      unfold extract_with_pdfplumber
      rw [List.length_map, List.length_range']
    rw [extract_with_pdfplumber_page_numbers, hlen, hrs0]

/-- Witness for C3: extracting pages 2..3 of a 4-page document yields 2
records numbered 2, 3 for the PyMuPDF backend. -/
theorem claim_C3_witness :
    (extract_with_pymupdf ["a", "b", "c", "d"] (some 2) (some 3)).length =
        min 3 (["a", "b", "c", "d"] : List String).length - (2 - 1) ∧
      (extract_with_pymupdf ["a", "b", "c", "d"] (some 2) (some 3)).map
          PageRecord.page_number =
        List.range' 2 ((extract_with_pymupdf ["a", "b", "c", "d"] (some 2) (some 3)).length) :=
  (claim_C3 2 3 (by decide) (by decide)).1 ["a", "b", "c", "d"] (by decide)

/-- Claim C7: coercing `None` page texts to `""` makes the pdfplumber
backend agree record-for-record with the PyMuPDF backend run on the
coerced document (the two backends are behaviorally interchangeable on
textless pages), and on a document of only textless pages every
returned record carries the empty string. -/
theorem claim_C7 :
    (∀ (doc : List (Option String)) (sp ep : Option Nat),
      extract_with_pdfplumber doc sp ep =
        extract_with_pymupdf (doc.map (fun t => t.getD "")) sp ep) ∧
    (∀ (k : Nat) (sp ep : Option Nat),
      ((extract_with_pdfplumber (List.replicate k none) sp ep).all
        (fun r => r.text == "")) = true) := by
  constructor
  · intro doc sp ep
    unfold extract_with_pdfplumber extract_with_pymupdf
    simp only [List.length_map]
    apply List.map_congr_left
    intro i _
    have htext : ((doc.map (fun t => t.getD "")).getD i "") = (doc.getD i none).getD "" := by
      rw [List.getD_eq_getElem?_getD, List.getD_eq_getElem?_getD, List.getElem?_map]
      cases doc[i]? <;> simp
    rw [htext]
  · intro k sp ep
    rw [List.all_eq_true]
    intro r hr
    unfold extract_with_pdfplumber at hr
    obtain ⟨i, _, rfl⟩ := List.mem_map.mp hr
    simp only [beq_iff_eq]
    rw [List.getD_eq_getElem?_getD, List.getElem?_replicate]
    split <;> simp

/-- Claim C10 (implicit): a start page strictly beyond the document's
page count makes the resolved range empty, so both backends return the
empty record list without raising (the start is never clamped or
validated); with the whole loop skipped, the PyMuPDF close also runs. -/
theorem claim_C10 (s : Nat) (ep : Option Nat)
    (doc : List (Except Unit String)) (doc2 : List (Except Unit (Option String)))
    (h1 : doc.length < s) (h2 : doc2.length < s) :
    extract_with_pymupdf_run doc (some s) ep = (Except.ok [], true) ∧
    extract_with_pdfplumber_run doc2 (some s) ep = (Except.ok [], true) := by
  have hs' : s ≠ 0 := by omega
  have hrs : resolveStart (some s) = s - 1 := by simp [resolveStart, hs']
  constructor
  · have hnil : List.range' (resolveStart (some s))
        (min (resolveEnd doc.length ep) doc.length - resolveStart (some s)) = [] := by
      have hmin : min (resolveEnd doc.length ep) doc.length ≤ doc.length :=
        Nat.min_le_right _ _
      rw [hrs]
      have hz : min (resolveEnd doc.length ep) doc.length - (s - 1) = 0 := by omega
      rw [hz]
      exact List.range'_zero
    simp only [extract_with_pymupdf_run]
    rw [hnil]
    rfl
  · have hnil : List.range' (resolveStart (some s))
        (min (resolveEnd doc2.length ep) doc2.length - resolveStart (some s)) = [] := by
      have hmin : min (resolveEnd doc2.length ep) doc2.length ≤ doc2.length :=
        Nat.min_le_right _ _
      rw [hrs]
      have hz : min (resolveEnd doc2.length ep) doc2.length - (s - 1) = 0 := by omega
      rw [hz]
      exact List.range'_zero
    simp only [extract_with_pdfplumber_run]
    rw [hnil]
    rfl

/-- Witness for C10: a 1-page document whose page would raise, and an
empty document, both asked to start at page 2: the result is the empty
list with no exception (and the handle released). -/
theorem claim_C10_witness :
    extract_with_pymupdf_run [Except.error ()] (some 2) none = (Except.ok [], true) ∧
    extract_with_pdfplumber_run [] (some 2) none = (Except.ok [], true) :=
  claim_C10 2 none [Except.error ()] [] (by decide) (by decide)

/-- Claim C2 counterexample: with the PyMuPDF backend, a one-page
document whose page text extraction raises makes `_extract_with_pymupdf`
propagate the exception without ever reaching `doc.close()` (the call
sits after the loop with no `try`/`finally`), so the handle is not
released on this exit path — refuting release on every exit path for
both backends. -/
theorem claim_C2_counterexample :
    extract_with_pymupdf_run [Except.error ()] none none = (Except.error (), false) := rfl

/-- Claim C2 (amended): the pdfplumber backend releases the document
handle before returning on every exit path (its `with` block closes on
success and on exception alike), while the PyMuPDF backend releases it
exactly when extraction of the whole requested range succeeds. -/
theorem claim_C2_amended :
    (∀ (doc : List (Except Unit (Option String))) (sp ep : Option Nat),
      (extract_with_pdfplumber_run doc sp ep).2 = true) ∧
    (∀ (doc : List (Except Unit String)) (sp ep : Option Nat),
      (extract_with_pymupdf_run doc sp ep).2 = (extract_with_pymupdf_run doc sp ep).1.isOk) := by
  constructor
  · intro doc sp ep; rfl
  · intro doc sp ep
    simp only [extract_with_pymupdf_run]
    split <;> rfl

/-- Decimal digit character; only applied to values below 10. -/
def digitChar : Nat → Char
  | 0 => '0'
  | 1 => '1'
  | 2 => '2'
  | 3 => '3'
  | 4 => '4'
  | 5 => '5'
  | 6 => '6'
  | 7 => '7'
  | 8 => '8'
  | _ => '9'

/-- Decimal rendering of a natural number, as Python `str(n)` and
`json.dumps` produce for the tool's non-negative page numbers. -/
def renderNat (n : Nat) : List Char :=
  if n < 10 then [digitChar n]
  else renderNat (n / 10) ++ [digitChar (n % 10)]
termination_by n
decreasing_by exact Nat.div_lt_self (by omega) (by omega)

/-- String form of `renderNat`, modelling the f-string interpolation of
a page number. -/
def natRepr (n : Nat) : String := String.mk (renderNat n)

/-- The banner separator `'='*60` of `extract_to_text`. -/
def sepLine : String := String.mk (List.replicate 60 '=')

/-- Models `PDFExtractor.extract_to_text`: the loop appends, per page,
the optional three banner lines (`"\n" + 60 separators`, `"Page N"`,
`60 separators + "\n"`) and then the page's raw text; the result is
`"\n".join(lines)`. -/
def extract_to_text (pages : List PageRecord) (include_page_numbers : Bool) : String :=
  String.intercalate "\n"
    (pages.foldl
      (fun lines page_data =>
        if include_page_numbers then
          lines ++ ["\n" ++ sepLine, "Page " ++ natRepr page_data.page_number,
            sepLine ++ "\n", page_data.text]
        else
          lines ++ [page_data.text])
      [])

/-- A left fold that appends blocks per element flattens the per-element
blocks in order. -/
theorem foldl_append_flatten {α β : Type} (g : α → List β) :
    ∀ (l : List α) (init : List β),
      l.foldl (fun acc x => acc ++ g x) init = init ++ List.flatten (l.map g) := by
  intro l
  induction l with
  | nil => intro init; simp
  | cons x xs ih => intro init; simp [ih]

/-- Flattening singleton blocks is just mapping. -/
theorem flatten_map_singleton {α β : Type} (f : α → β) :
    ∀ l : List α, List.flatten (l.map fun x => [f x]) = l.map f := by
  intro l
  induction l with
  | nil => rfl
  | cons x xs ih => simp [ih]

/-- Claim C8: with banners suppressed the text formatter emits exactly
the pages' raw texts, in order, joined by single newlines and with no
banner lines; with banners enabled each page is preceded by the
60-separator banner, the "Page N" label and the closing separator
line. -/
theorem claim_C8 (pages : List PageRecord) :
    extract_to_text pages false = String.intercalate "\n" (pages.map PageRecord.text) ∧
    extract_to_text pages true =
      String.intercalate "\n"
        (List.flatten (pages.map fun p =>
          ["\n" ++ sepLine, "Page " ++ natRepr p.page_number, sepLine ++ "\n", p.text])) ∧
    sepLine.length = 60 := by
  refine ⟨?_, ?_, ?_⟩
  · unfold extract_to_text
    simp only [Bool.false_eq_true, if_false]
    rw [foldl_append_flatten, List.nil_append, flatten_map_singleton]
  · unfold extract_to_text
    simp only [if_true]
    rw [foldl_append_flatten, List.nil_append]
  · rfl

example :
    extract_to_text [{ page_number := 1, text := "a" }, { page_number := 2, text := "b" }]
      false = "a\nb" := by
  decide

/-- Lowercase hexadecimal digit character; only applied below 16. -/
def hexDigitChar : Nat → Char
  | 0 => '0'
  | 1 => '1'
  | 2 => '2'
  | 3 => '3'
  | 4 => '4'
  | 5 => '5'
  | 6 => '6'
  | 7 => '7'
  | 8 => '8'
  | 9 => '9'
  | 10 => 'a'
  | 11 => 'b'
  | 12 => 'c'
  | 13 => 'd'
  | 14 => 'e'
  | _ => 'f'

/-- Models the string escaping of Python `json.dumps` with
`ensure_ascii=False`: quote, backslash and the short control escapes
first, any other control character as `\u00xx`, everything else
(including non-ASCII) emitted raw. -/
def escapeChar (c : Char) : List Char :=
  if c = '"' then ['\\', '"']
  else if c = '\\' then ['\\', '\\']
  else if c = '\n' then ['\\', 'n']
  else if c = '\r' then ['\\', 'r']
  else if c = '\t' then ['\\', 't']
  else if c = Char.ofNat 8 then ['\\', 'b']
  else if c = Char.ofNat 12 then ['\\', 'f']
  else if c.toNat < 32 then
    ['\\', 'u', '0', '0', hexDigitChar (c.toNat / 16), hexDigitChar (c.toNat % 16)]
  else [c]

/-- Escapes every character of a string body in order. -/
def escapeList : List Char → List Char
  | [] => []
  | c :: cs => escapeChar c ++ escapeList cs

/-- A JSON string literal: quote, escaped body, quote. -/
def renderString (s : String) : List Char :=
  '"' :: (escapeList s.toList ++ ['"'])

/-- Fixed prefix of a serialized page object up to its page number
(`json.dumps` at indent 2 puts list items at indent 2 and keys at
indent 4, with key separator ": "). -/
def pageKeySeg : List Char := "  \x7b\n    \"page_number\": ".toList

/-- Fixed segment between the page number and the text value. -/
def textKeySeg : List Char := ",\n    \"text\": ".toList

/-- Fixed suffix closing a serialized page object. -/
def pageEndSeg : List Char := "\n  \x7d".toList

/-- One serialized page object of the `json.dumps(pages, indent=2,
ensure_ascii=False)` output. -/
def renderPage (p : PageRecord) : List Char :=
  pageKeySeg ++ renderNat p.page_number ++ textKeySeg ++ renderString p.text ++ pageEndSeg

/-- The serialized page objects joined by the item separator `",\n"`. -/
def renderItems : List PageRecord → List Char
  | [] => []
  | [p] => renderPage p
  | p :: ps => renderPage p ++ (',' :: '\n' :: renderItems ps)

/-- Models `PDFExtractor.extract_to_json`, i.e. `json.dumps(pages,
indent=2, ensure_ascii=False)` at the document shape produced by
`extract_pages`: an empty list prints as `[]`, a non-empty one as a
bracketed, two-space-indented list of page objects. -/
def extract_to_json (pages : List PageRecord) : String :=
  match pages with
  | [] => "[]"
  | _ => String.mk ('[' :: '\n' :: (renderItems pages ++ ('\n' :: ']' :: [])))

/-- JSON whitespace (RFC 8259): space, tab, linefeed, carriage return. -/
def jsonWs (c : Char) : Bool := c = ' ' || c = '\t' || c = '\n' || c = '\r'

/-- Skips insignificant whitespace between JSON tokens. -/
def skipWs (l : List Char) : List Char := l.dropWhile jsonWs

/-- Hexadecimal digit value accepted inside `\uXXXX` escapes. -/
def hexVal (c : Char) : Option Nat :=
  if '0' ≤ c && c ≤ '9' then some (c.toNat - 48)
  else if 'a' ≤ c && c ≤ 'f' then some (c.toNat - 87)
  else if 'A' ≤ c && c ≤ 'F' then some (c.toNat - 55)
  else none

/-- The single-character JSON string escapes. -/
def parseEsc (e : Char) : Option Char :=
  if e = '"' then some '"'
  else if e = '\\' then some '\\'
  else if e = '/' then some '/'
  else if e = 'n' then some '\n'
  else if e = 'r' then some '\r'
  else if e = 't' then some '\t'
  else if e = 'b' then some (Char.ofNat 8)
  else if e = 'f' then some (Char.ofNat 12)
  else none

/-- Parses the body of a JSON string literal (after the opening quote)
up to and including the closing quote, returning the decoded characters
and the remaining input.  As in strict-mode `json.loads`, raw control
characters are rejected. -/
def parseStringBody : List Char → Option (List Char × List Char)
  | [] => none
  | c :: rest =>
    if c = '"' then some ([], rest)
    else if c = '\\' then
      match rest with
      | [] => none
      | 'u' :: a :: b :: c2 :: d :: rs =>
        match hexVal a, hexVal b, hexVal c2, hexVal d with
        | some va, some vb, some vc, some vd =>
          match parseStringBody rs with
          | some pr => some (Char.ofNat (4096 * va + 256 * vb + 16 * vc + vd) :: pr.1, pr.2)
          | none => none
        | _, _, _, _ => none
      | e :: rs =>
        match parseEsc e with
        | some ch =>
          match parseStringBody rs with
          | some pr => some (ch :: pr.1, pr.2)
          | none => none
        | none => none
    else if c.toNat < 32 then none
    else
      match parseStringBody rest with
      | some pr => some (c :: pr.1, pr.2)
      | none => none

/-- Parses a non-negative decimal integer (the only number shape the
tool serializes), returning its value and the remaining input. -/
def parseNat (l : List Char) : Option (Nat × List Char) :=
  if (l.takeWhile isDigitChar) = [] then none
  else some ((l.takeWhile isDigitChar).foldl (fun acc c => 10 * acc + (c.toNat - 48)) 0,
    l.dropWhile isDigitChar)

/-- Consumes whitespace and then one expected punctuation character. -/
def expectChar (c : Char) (l : List Char) : Option (List Char) :=
  match skipWs l with
  | [] => none
  | x :: r => if x = c then some r else none

/-- Consumes whitespace and then one JSON string literal. -/
def parseKeyString (l : List Char) : Option (List Char × List Char) :=
  match skipWs l with
  | '"' :: r => parseStringBody r
  | _ => none

/-- Parses one page object `{"page_number": N, "text": S}` in the key
order the tool serializes. -/
def parsePage (l : List Char) : Option (PageRecord × List Char) :=
  match expectChar '\x7b' l with
  | none => none
  | some r1 =>
    match parseKeyString r1 with
    | none => none
    | some (k1, r2) =>
      if k1 = "page_number".toList then
        match expectChar ':' r2 with
        | none => none
        | some r3 =>
          match parseNat (skipWs r3) with
          | none => none
          | some (n, r4) =>
            match expectChar ',' r4 with
            | none => none
            | some r5 =>
              match parseKeyString r5 with
              | none => none
              | some (k2, r6) =>
                if k2 = "text".toList then
                  match expectChar ':' r6 with
                  | none => none
                  | some r7 =>
                    match parseKeyString r7 with
                    | none => none
                    | some (txt, r8) =>
                      match expectChar '\x7d' r8 with
                      | none => none
                      | some r9 =>
                        some ({ page_number := n, text := String.mk txt }, r9)
                else none
      else none

/-- Parses one or more comma-separated page objects; the fuel bounds the
number of items and is instantiated with the input length. -/
def parseItems : Nat → List Char → Option (List PageRecord × List Char)
  | 0, _ => none
  | fuel + 1, l =>
    match parsePage l with
    | none => none
    | some (p, r) =>
      match skipWs r with
      | ',' :: r2 =>
        match parseItems fuel r2 with
        | none => none
        | some (ps, r3) => some (p :: ps, r3)
      | _ => some ([p], r)

/-- Models Python `json.loads` specialized to the document shape
`extract_to_json` emits: a (possibly empty) JSON array of page objects,
with arbitrary whitespace between tokens and nothing but whitespace
after the closing bracket. -/
def json_loads_pages (s : String) : Option (List PageRecord) :=
  match skipWs s.toList with
  | '[' :: r =>
    match skipWs r with
    | ']' :: r2 => if skipWs r2 = [] then some [] else none
    | _ =>
      match parseItems (s.toList.length + 1) r with
      | none => none
      | some (ps, r2) =>
        match skipWs r2 with
        | ']' :: r3 => if skipWs r3 = [] then some ps else none
        | _ => none
  | _ => none

example :
    extract_to_json [{ page_number := 1, text := "a" }] =
      "[\n  \x7b\n    \"page_number\": 1,\n    \"text\": \"a\"\n  \x7d\n]" := by
  simp [extract_to_json, renderItems, renderPage, pageKeySeg, textKeySeg, pageEndSeg,
    renderString, escapeList, escapeChar, renderNat, digitChar]

example : json_loads_pages "[]" = some [] := by decide

theorem hexVal_hexDigitChar (m : Nat) (h : m < 16) : hexVal (hexDigitChar m) = some m := by
  interval_cases m <;> rfl

theorem parseStringBody_quote (X : List Char) :
    parseStringBody ('\\' :: '"' :: X) =
      (match parseStringBody X with
       | some pr => some (('"' : Char) :: pr.1, pr.2)
       | none => none) := rfl

theorem parseStringBody_backslash (X : List Char) :
    parseStringBody ('\\' :: '\\' :: X) =
      (match parseStringBody X with
       | some pr => some (('\\' : Char) :: pr.1, pr.2)
       | none => none) := rfl

theorem parseStringBody_n (X : List Char) :
    parseStringBody ('\\' :: 'n' :: X) =
      (match parseStringBody X with
       | some pr => some (('\n' : Char) :: pr.1, pr.2)
       | none => none) := rfl

theorem parseStringBody_r (X : List Char) :
    parseStringBody ('\\' :: 'r' :: X) =
      (match parseStringBody X with
       | some pr => some (('\r' : Char) :: pr.1, pr.2)
       | none => none) := rfl

theorem parseStringBody_t (X : List Char) :
    parseStringBody ('\\' :: 't' :: X) =
      (match parseStringBody X with
       | some pr => some (('\t' : Char) :: pr.1, pr.2)
       | none => none) := rfl

theorem parseStringBody_b (X : List Char) :
    parseStringBody ('\\' :: 'b' :: X) =
      (match parseStringBody X with
       | some pr => some (Char.ofNat 8 :: pr.1, pr.2)
       | none => none) := rfl

theorem parseStringBody_f (X : List Char) :
    parseStringBody ('\\' :: 'f' :: X) =
      (match parseStringBody X with
       | some pr => some (Char.ofNat 12 :: pr.1, pr.2)
       | none => none) := rfl

theorem parseStringBody_unicode (a b : Char) (va vb : Nat) (X : List Char)
    (ha : hexVal a = some va) (hb : hexVal b = some vb) :
    parseStringBody ('\\' :: 'u' :: '0' :: '0' :: a :: b :: X) =
      (match parseStringBody X with
       | some pr => some (Char.ofNat (16 * va + vb) :: pr.1, pr.2)
       | none => none) := by
  have h0 : hexVal '0' = some 0 := rfl
  simp only [parseStringBody, h0, ha, hb]
  norm_num
  exact fun h => absurd h (by decide)

theorem parseStringBody_raw (c : Char) (h1 : c ≠ '"') (h2 : c ≠ '\\')
    (h3 : ¬ c.toNat < 32) (X : List Char) :
    parseStringBody (c :: X) =
      (match parseStringBody X with
       | some pr => some (c :: pr.1, pr.2)
       | none => none) := by
  rw [parseStringBody.eq_def]
  simp only []
  rw [if_neg h1, if_neg h2, if_neg h3]

theorem parseStringBody_close (rest : List Char) :
    parseStringBody ('"' :: rest) = some ([], rest) := by
  rw [parseStringBody.eq_def]
  simp

/-- Round trip of the string-body escaping: parsing the escaped body of
any string, followed by the closing quote, recovers the original
characters and leaves the remaining input untouched. -/
theorem parseStringBody_escapeList :
    ∀ (l rest : List Char), parseStringBody (escapeList l ++ ('"' :: rest)) = some (l, rest) := by
  intro l
  induction l with
  | nil =>
    intro rest
    show parseStringBody ('"' :: rest) = some ([], rest)
    exact parseStringBody_close rest
  | cons c cs ih =>
    intro rest
    by_cases h1 : c = '"'
    · subst h1
      show parseStringBody ('\\' :: '"' :: (escapeList cs ++ ('"' :: rest))) = _
      rw [parseStringBody_quote, ih]
    · by_cases h2 : c = '\\'
      · subst h2
        show parseStringBody ('\\' :: '\\' :: (escapeList cs ++ ('"' :: rest))) = _
        rw [parseStringBody_backslash, ih]
      · by_cases h3 : c = '\n'
        · subst h3
          show parseStringBody ('\\' :: 'n' :: (escapeList cs ++ ('"' :: rest))) = _
          rw [parseStringBody_n, ih]
        · by_cases h4 : c = '\r'
          · subst h4
            show parseStringBody ('\\' :: 'r' :: (escapeList cs ++ ('"' :: rest))) = _
            rw [parseStringBody_r, ih]
          · by_cases h5 : c = '\t'
            · subst h5
              show parseStringBody ('\\' :: 't' :: (escapeList cs ++ ('"' :: rest))) = _
              rw [parseStringBody_t, ih]
            · by_cases h6 : c = Char.ofNat 8
              · subst h6
                show parseStringBody ('\\' :: 'b' :: (escapeList cs ++ ('"' :: rest))) = _
                rw [parseStringBody_b, ih]
              · by_cases h7 : c = Char.ofNat 12
                · subst h7
                  show parseStringBody ('\\' :: 'f' :: (escapeList cs ++ ('"' :: rest))) = _
                  rw [parseStringBody_f, ih]
                · by_cases h8 : c.toNat < 32
                  · have hesc : escapeChar c = ['\\', 'u', '0', '0',
                        hexDigitChar (c.toNat / 16), hexDigitChar (c.toNat % 16)] := by
                      unfold escapeChar
                      rw [if_neg h1, if_neg h2, if_neg h3, if_neg h4, if_neg h5,
                        if_neg h6, if_neg h7, if_pos h8]
                    have hgoal : escapeList (c :: cs) ++ ('"' :: rest) =
                        '\\' :: 'u' :: '0' :: '0' :: hexDigitChar (c.toNat / 16) ::
                          hexDigitChar (c.toNat % 16) :: (escapeList cs ++ ('"' :: rest)) := by
                      show escapeChar c ++ escapeList cs ++ ('"' :: rest) = _
                      rw [hesc]
                      rfl
                    rw [hgoal]
                    rw [parseStringBody_unicode (hexDigitChar (c.toNat / 16))
                        (hexDigitChar (c.toNat % 16)) (c.toNat / 16) (c.toNat % 16)
                        (escapeList cs ++ ('"' :: rest))
                        (hexVal_hexDigitChar (c.toNat / 16) (by omega))
                        (hexVal_hexDigitChar (c.toNat % 16) (by omega))]
                    rw [ih]
                    have hc : 16 * (c.toNat / 16) + c.toNat % 16 = c.toNat := by omega
                    rw [hc, Char.ofNat_toNat]
                  · have hesc : escapeChar c = [c] := by
                      unfold escapeChar
                      rw [if_neg h1, if_neg h2, if_neg h3, if_neg h4, if_neg h5,
                        if_neg h6, if_neg h7, if_neg h8]
                    have hgoal : escapeList (c :: cs) ++ ('"' :: rest) =
                        c :: (escapeList cs ++ ('"' :: rest)) := by
                      show escapeChar c ++ escapeList cs ++ ('"' :: rest) = _
                      rw [hesc]
                      rfl
                    rw [hgoal, parseStringBody_raw c h1 h2 h8, ih]

theorem isDigitChar_digitChar (d : Nat) (h : d < 10) : isDigitChar (digitChar d) = true := by
  interval_cases d <;> rfl

theorem digitVal_digitChar (d : Nat) (h : d < 10) : (digitChar d).toNat - 48 = d := by
  interval_cases d <;> rfl

theorem renderNat_digits : ∀ n : Nat, ∀ c ∈ renderNat n, isDigitChar c = true := by
  intro n
  induction n using Nat.strong_induction_on with
  | _ n ih =>
    intro c hc
    rw [renderNat.eq_def] at hc
    by_cases h : n < 10
    · rw [if_pos h] at hc
      simp only [List.mem_singleton] at hc
      subst hc
      exact isDigitChar_digitChar n h
    · rw [if_neg h] at hc
      simp only [List.mem_append, List.mem_singleton] at hc
      rcases hc with hc | hc
      · exact ih (n / 10) (Nat.div_lt_self (by omega) (by omega)) c hc
      · subst hc
        exact isDigitChar_digitChar (n % 10) (Nat.mod_lt n (by omega))

theorem renderNat_ne_nil (n : Nat) : renderNat n ≠ [] := by
  rw [renderNat.eq_def]
  by_cases h : n < 10
  · rw [if_pos h]; simp
  · rw [if_neg h]; simp

theorem renderNat_foldl : ∀ n : Nat,
    (renderNat n).foldl (fun acc c => 10 * acc + (c.toNat - 48)) 0 = n := by
  intro n
  induction n using Nat.strong_induction_on with
  | _ n ih =>
    rw [renderNat.eq_def]
    by_cases h : n < 10
    · rw [if_pos h]
      simp only [List.foldl_cons, List.foldl_nil, Nat.mul_zero, Nat.zero_add]
      exact digitVal_digitChar n h
    · rw [if_neg h]
      rw [List.foldl_append, ih (n / 10) (Nat.div_lt_self (by omega) (by omega))]
      simp only [List.foldl_cons, List.foldl_nil]
      rw [digitVal_digitChar (n % 10) (Nat.mod_lt n (by omega))]
      omega

theorem takeWhile_append_all {α : Type} (p : α → Bool) (c : α) (hc : p c = false) :
    ∀ (l1 rest : List α), (∀ x ∈ l1, p x = true) →
      (l1 ++ c :: rest).takeWhile p = l1 := by
  intro l1
  induction l1 with
  | nil =>
    intro rest _
    simp [List.takeWhile_cons, hc]
  | cons x xs ih =>
    intro rest h
    rw [List.cons_append, List.takeWhile_cons, h x (by simp)]
    simp only [if_true]
    rw [ih rest (fun y hy => h y (by simp [hy]))]

theorem dropWhile_append_all {α : Type} (p : α → Bool) (c : α) (hc : p c = false) :
    ∀ (l1 rest : List α), (∀ x ∈ l1, p x = true) →
      (l1 ++ c :: rest).dropWhile p = c :: rest := by
  intro l1
  induction l1 with
  | nil =>
    intro rest _
    simp [List.dropWhile_cons, hc]
  | cons x xs ih =>
    intro rest h
    rw [List.cons_append, List.dropWhile_cons]
    rw [h x (by simp)]
    simp only [if_true]
    exact ih rest (fun y hy => h y (by simp [hy]))

/-- Round trip for the decimal rendering of a page number, provided the
next character is not a digit (in the serialized document it is always
the comma after the number). -/
theorem parseNat_renderNat (n : Nat) (c : Char) (rest : List Char)
    (hc : isDigitChar c = false) :
    parseNat (renderNat n ++ c :: rest) = some (n, c :: rest) := by
  unfold parseNat
  rw [takeWhile_append_all isDigitChar c hc (renderNat n) rest (renderNat_digits n),
    dropWhile_append_all isDigitChar c hc (renderNat n) rest (renderNat_digits n)]
  rw [if_neg (renderNat_ne_nil n)]
  rw [renderNat_foldl]

theorem skipWs_cons_ws (c : Char) (h : jsonWs c = true) (l : List Char) :
    skipWs (c :: l) = skipWs l := by
  simp [skipWs, List.dropWhile_cons, h]

theorem skipWs_cons_not (c : Char) (h : jsonWs c = false) (l : List Char) :
    skipWs (c :: l) = c :: l := by
  simp [skipWs, List.dropWhile_cons, h]

theorem skipWs_append_ws : ∀ pre : List Char, (∀ x ∈ pre, jsonWs x = true) →
    ∀ l : List Char, skipWs (pre ++ l) = skipWs l := by
  intro pre
  induction pre with
  | nil => intro _ l; rfl
  | cons c cs ih =>
    intro h l
    rw [List.cons_append, skipWs_cons_ws c (h c (by simp))]
    exact ih (fun x hx => h x (by simp [hx])) l

theorem jsonWs_of_digit (c : Char) (h : isDigitChar c = true) : jsonWs c = false := by
  cases hc : jsonWs c with
  | false => rfl
  | true =>
    exfalso
    unfold jsonWs at hc
    simp only [Bool.or_eq_true, decide_eq_true_eq] at hc
    rcases hc with ((h1 | h1) | h1) | h1 <;> subst h1 <;> exact absurd h (by decide)

theorem skipWs_renderNat (n : Nat) (X : List Char) :
    skipWs (renderNat n ++ X) = renderNat n ++ X := by
  cases h : renderNat n with
  | nil => exact absurd h (renderNat_ne_nil n)
  | cons d ds =>
    have hd : isDigitChar d = true := renderNat_digits n d (by rw [h]; simp)
    rw [List.cons_append]
    exact skipWs_cons_not d (jsonWs_of_digit d hd) _

theorem string_mk_toList (s : String) : String.mk s.toList = s := rfl

theorem step_expect_page (Z : List Char) :
    expectChar '\x7b' (pageKeySeg ++ Z) =
      some ("\n    \"page_number\": ".toList ++ Z) := rfl

theorem step_key_page (Z : List Char) :
    parseKeyString ("\n    \"page_number\": ".toList ++ Z) =
      some ("page_number".toList, ':' :: ' ' :: Z) := rfl

theorem step_colon (Z : List Char) : expectChar ':' (':' :: ' ' :: Z) = some (' ' :: Z) := rfl

theorem step_parseNat (n : Nat) (W : List Char) :
    parseNat (skipWs (' ' :: (renderNat n ++ (textKeySeg ++ W)))) =
      some (n, textKeySeg ++ W) := by
  rw [skipWs_cons_ws ' ' (by decide), skipWs_renderNat]
  have hT : textKeySeg ++ W = ',' :: ("\n    \"text\": ".toList ++ W) := rfl
  rw [hT]
  exact parseNat_renderNat n ',' _ (by decide)

theorem step_expect_comma (W : List Char) :
    expectChar ',' (textKeySeg ++ W) = some ("\n    \"text\": ".toList ++ W) := rfl

theorem step_key_text (Z : List Char) :
    parseKeyString ("\n    \"text\": ".toList ++ Z) =
      some ("text".toList, ':' :: ' ' :: Z) := rfl

theorem step_value (t : String) (W : List Char) :
    parseKeyString (' ' :: (renderString t ++ W)) = some (t.toList, W) := by
  have h1 : skipWs (' ' :: (renderString t ++ W)) =
      '"' :: (escapeList t.toList ++ ('"' :: W)) := by
    rw [skipWs_cons_ws ' ' (by decide)]
    have h2 : renderString t ++ W = '"' :: (escapeList t.toList ++ ('"' :: W)) := by
      show ('"' :: (escapeList t.toList ++ ['"'])) ++ W = _
      simp
    rw [h2]
    exact skipWs_cons_not '"' (by decide) _
  unfold parseKeyString
  rw [h1]
  show parseStringBody (escapeList t.toList ++ ('"' :: W)) = _
  exact parseStringBody_escapeList t.toList W

theorem step_expect_close (rest : List Char) :
    expectChar '\x7d' (pageEndSeg ++ rest) = some rest := rfl

/-- Round trip for one serialized page object: parsing it recovers the
record and leaves the remaining input untouched. -/
theorem parsePage_render (p : PageRecord) (rest : List Char) :
    parsePage (renderPage p ++ rest) = some (p, rest) := by
  obtain ⟨n, t⟩ := p
  have hshape : renderPage { page_number := n, text := t } ++ rest =
      pageKeySeg ++ (renderNat n ++ (textKeySeg ++ (renderString t ++ (pageEndSeg ++ rest)))) := by
    simp [renderPage, List.append_assoc]
  rw [hshape]
  unfold parsePage
  simp only [step_expect_page, step_key_page, step_colon, step_parseNat, step_expect_comma,
    step_key_text, step_value, step_expect_close, string_mk_toList, if_true]

theorem expectChar_ws_skip (c : Char) (pre : List Char)
    (hpre : ∀ x ∈ pre, jsonWs x = true) (l : List Char) :
    expectChar c (pre ++ l) = expectChar c l := by
  unfold expectChar
  rw [skipWs_append_ws pre hpre l]

/-- Leading whitespace before a page object is harmless: the parser
skips it before the opening brace. -/
theorem parsePage_ws_skip (pre : List Char) (hpre : ∀ x ∈ pre, jsonWs x = true)
    (l : List Char) : parsePage (pre ++ l) = parsePage l := by
  unfold parsePage
  rw [expectChar_ws_skip '\x7b' pre hpre l]

/-- Round trip for the comma-separated item list followed by the closing
`"\n]"`: any whitespace prefix is skipped, each item parses by
`parsePage_render`, and the scan stops at the closing bracket. -/
theorem parseItems_render :
    ∀ (ps : List PageRecord) (fuel : Nat) (pre : List Char),
      ps ≠ [] → ps.length ≤ fuel → (∀ x ∈ pre, jsonWs x = true) →
      parseItems fuel (pre ++ (renderItems ps ++ ('\n' :: ']' :: []))) =
        some (ps, '\n' :: ']' :: []) := by
  intro ps
  induction ps with
  | nil => intro fuel pre h _ _; exact absurd rfl h
  | cons p ps ih =>
    intro fuel pre _ hf hpre
    cases fuel with
    | zero => simp at hf
    | succ fuel =>
      cases ps with
      | nil =>
        show parseItems (fuel + 1) (pre ++ (renderPage p ++ ('\n' :: ']' :: []))) = _
        simp only [parseItems, parsePage_ws_skip pre hpre, parsePage_render]
        rfl
      | cons q qs =>
        have hsh : renderItems (p :: q :: qs) ++ ('\n' :: ']' :: []) =
            renderPage p ++ (',' :: '\n' :: (renderItems (q :: qs) ++ ('\n' :: ']' :: []))) := by
          show (renderPage p ++ (',' :: '\n' :: renderItems (q :: qs))) ++ ('\n' :: ']' :: []) = _
          simp
        rw [hsh]
        have hf' : (q :: qs).length ≤ fuel := by
          simp only [List.length_cons] at hf ⊢
          omega
        have hih := ih fuel ['\n'] (by simp) hf' (by decide)
        rw [List.singleton_append] at hih
        simp only [parseItems, parsePage_ws_skip pre hpre, parsePage_render]
        rw [skipWs_cons_not ',' (by decide)]
        simp only [hih]

theorem renderPage_length_pos (p : PageRecord) : 0 < (renderPage p).length := by
  unfold renderPage
  rw [List.length_append, List.length_append, List.length_append, List.length_append]
  have h23 : pageKeySeg.length = 23 := rfl
  omega

theorem renderItems_length_ge : ∀ ps : List PageRecord, ps.length ≤ (renderItems ps).length := by
  intro ps
  induction ps with
  | nil => simp [renderItems]
  | cons p ps ih =>
    cases ps with
    | nil =>
      show (1 : Nat) ≤ (renderPage p).length
      exact renderPage_length_pos p
    | cons q qs =>
      have hlen : (renderItems (p :: q :: qs)).length =
          (renderPage p).length + (2 + (renderItems (q :: qs)).length) := by
        show (renderPage p ++ (',' :: '\n' :: renderItems (q :: qs))).length = _
        simp
        omega
      have hp := renderPage_length_pos p
      simp only [List.length_cons] at ih ⊢
      omega

/-- Claim C4: serializing any page-record sequence with the JSON
formatter (indentation 2, non-ASCII preserved unescaped) and parsing the
resulting text back reproduces the original records exactly — the same
page numbers and the same text on every record. -/
theorem claim_C4 (pages : List PageRecord) :
    json_loads_pages (extract_to_json pages) = some pages := by
  cases pages with
  | nil => rfl
  | cons p ps =>
    show json_loads_pages
        (String.mk ('[' :: '\n' :: (renderItems (p :: ps) ++ ('\n' :: ']' :: [])))) = _
    unfold json_loads_pages
    have hL : (String.mk ('[' :: '\n' :: (renderItems (p :: ps) ++ ('\n' :: ']' :: [])))).toList =
        '[' :: '\n' :: (renderItems (p :: ps) ++ ('\n' :: ']' :: [])) := rfl
    rw [hL]
    rw [skipWs_cons_not '[' (by decide)]
    obtain ⟨T, hT⟩ : ∃ T, renderItems (p :: ps) ++ ('\n' :: ']' :: []) =
        ' ' :: ' ' :: '\x7b' :: T := by
      cases ps with
      | nil => exact ⟨_, rfl⟩
      | cons q qs => exact ⟨_, rfl⟩
    have hsk2 : skipWs ('\n' :: (renderItems (p :: ps) ++ ('\n' :: ']' :: []))) =
        '\x7b' :: T := by
      rw [hT]
      rw [skipWs_cons_ws '\n' (by decide), skipWs_cons_ws ' ' (by decide),
        skipWs_cons_ws ' ' (by decide)]
      exact skipWs_cons_not '\x7b' (by decide) _
    have hfuel : (p :: ps).length ≤
        ('[' :: '\n' :: (renderItems (p :: ps) ++ ('\n' :: ']' :: []))).length + 1 := by
      have hge := renderItems_length_ge (p :: ps)
      simp only [List.length_cons, List.length_append] at hge ⊢
      omega
    have hitems : parseItems
        (('[' :: '\n' :: (renderItems (p :: ps) ++ ('\n' :: ']' :: []))).length + 1)
        ('\n' :: (renderItems (p :: ps) ++ ('\n' :: ']' :: []))) =
        some (p :: ps, '\n' :: ']' :: []) := by
      rw [show ('\n' :: (renderItems (p :: ps) ++ ('\n' :: ']' :: []))) =
          ['\n'] ++ (renderItems (p :: ps) ++ ('\n' :: ']' :: [])) from rfl]
      exact parseItems_render (p :: ps) _ ['\n'] (by simp) hfuel (by decide)
    simp only [hsk2, hitems]
    rfl
